import Mathlib

/-!
# Verification of the drogue-device actor runtime core

A shallow embedding of the supervisor, timer multiplexer and blinker driver
of the repository, together with theorems settling each claim of the
specification.  Machine integers (`u32` milliseconds, `u8` readiness values)
are modelled as `Nat`; the source's arithmetic on them never overflows in the
modelled paths (the only subtraction is explicitly guarded to be
non-negative).  `RefCell` borrows are modelled as plain field accesses where
the source takes them one at a time; where the source holds two overlapping
guards on the same cell (the `Delay` handler's allocation path), the
resulting `BorrowMutError` is modelled as the panic it is.  Fallible
operations (`unwrap`, invalid atomic orderings, overlapping borrows) return
`Option`, with `none` standing for a Rust panic.
-/

/-! ## Readiness state (src/supervisor/mod.rs, `ActorState`) -/

/-- The readiness flag values of `ActorState` in src/supervisor/mod.rs. -/
inductive ActorState where
  | IDLE
  | WAITING
  | READY
  | UNKNOWN
deriving DecidableEq, Repr

/-- `ActorState as u8` (the `Into<u8>` impl): the enum discriminants. -/
def ActorState.val : ActorState → Nat
  | .IDLE => 0
  | .WAITING => 1
  | .READY => 2
  | .UNKNOWN => 127

/-! ## Atomic-ordering level model (src/supervisor/mod.rs lines 41-63, 157-159)

Rust's `AtomicU8::load` panics when called with `Ordering::Release` or
`Ordering::AcqRel`, and `AtomicU8::store` panics when called with
`Ordering::Acquire` or `Ordering::AcqRel` (documented behaviour of
`core::sync::atomic`).  We model an atomic load/store as `Option`-valued:
`none` is the panic. -/

/-- The five `core::sync::atomic::Ordering` values. -/
inductive MemOrdering where
  | relaxed
  | release
  | acquire
  | acqRel
  | seqCst
deriving DecidableEq, Repr

/-- Orderings accepted by `AtomicU8::load` (all but `Release` and `AcqRel`). -/
def loadOrderingValid : MemOrdering → Bool
  | .release => false
  | .acqRel => false
  | _ => true

/-- Orderings accepted by `AtomicU8::store` (all but `Acquire` and `AcqRel`). -/
def storeOrderingValid : MemOrdering → Bool
  | .acquire => false
  | .acqRel => false
  | _ => true

/-- An atomic load of current value `v` with ordering `ord`; `none` = panic. -/
def atomicLoad (ord : MemOrdering) (v : Nat) : Option Nat :=
  if loadOrderingValid ord then some v else none

/-- An atomic store of `newVal` with ordering `ord`; `none` = panic, `some`
returns the value now held. -/
def atomicStore (ord : MemOrdering) (_v newVal : Nat) : Option Nat :=
  if storeOrderingValid ord then some newVal else none

/-- `Supervised::is_idle` (line 41-43): `state.load(Ordering::Release) == 0`.
Note the source passes `Release` to a load. -/
def Supervised.is_idle (state : Nat) : Option Bool :=
  (atomicLoad .release state).map (· = ActorState.IDLE.val)

/-- `Supervised::signal_idle` (line 45-47): `store(IDLE, Ordering::Acquire)`.
Note the source passes `Acquire` to a store. -/
def Supervised.signal_idle (state : Nat) : Option Nat :=
  atomicStore .acquire state ActorState.IDLE.val

/-- `Supervised::is_waiting` (line 49-51): `load(Ordering::Release) == 1`. -/
def Supervised.is_waiting (state : Nat) : Option Bool :=
  (atomicLoad .release state).map (· = ActorState.WAITING.val)

/-- `Supervised::signal_waiting` (line 53-55): `store(WAITING, Acquire)`. -/
def Supervised.signal_waiting (state : Nat) : Option Nat :=
  atomicStore .acquire state ActorState.WAITING.val

/-- `Supervised::is_ready` (line 57-59): `load(Ordering::Release) == 2`. -/
def Supervised.is_ready (state : Nat) : Option Bool :=
  (atomicLoad .release state).map (· = ActorState.READY.val)

/-- `Supervised::signal_ready` (line 61-63): `store(READY, Acquire)`. -/
def Supervised.signal_ready (state : Nat) : Option Nat :=
  atomicStore .acquire state ActorState.READY.val

/-- `VTABLE::wake_by_ref` (line 157-159): the waker stores `READY` with
`Ordering::Release` into the readiness atomic behind the opaque pointer. -/
def VTABLE.wake_by_ref (state : Nat) : Option Nat :=
  atomicStore .release state ActorState.READY.val

/-! ## Behavioural supervisor model (src/supervisor/mod.rs lines 24-146)

The readiness flag is carried as its `ActorState` value, and every access to
it is routed through the ordering-level atomic model above, so the invalid
orderings the accessors pass surface as panics exactly where the program
panics.  An inbox work item is abstracted as a function from the
readiness-flag value at the start of its poll to its `Poll` result together
with the flag value after the poll (the waker handed to the item writes
`READY` through the state-flag handle, so an item may change the flag while
being polled). -/

/-- `core::task::Poll<()>`. -/
inductive PollRes where
  | ready
  | pending
deriving DecidableEq, Repr

/-- `ActorContext<A>`: the inbox of pending work items (`self.items`).
Each item is the abstract behaviour of `item.poll(cx)` as described above. -/
structure ActorContext where
  items : List (ActorState → PollRes × ActorState)

/-- `ActorContext::do_poll` (lines 88-110): poll every inbox item in order,
threading the readiness flag (which an item's waker may set to `READY`);
report `pending` iff some item was pending. -/
def ActorContext.do_poll (ctx : ActorContext) (flag : ActorState) :
    PollRes × ActorState :=
  let step := fun (acc : Bool × ActorState) (item : ActorState → PollRes × ActorState) =>
    let (res, flag') := item acc.2
    (acc.1 || (res = PollRes.pending), flag')
  let out := ctx.items.foldl step (false, flag)
  (if out.1 then .pending else .ready, out.2)

/-- `Supervised` (lines 24-27): an actor context plus its readiness flag. -/
structure Supervised where
  actor : ActorContext
  state : ActorState

/-- `Supervised::poll` (lines 65-80): check `is_ready`; if so, store `IDLE`,
run the inner poll, then store `IDLE` on completion or `WAITING` on pending
— unconditionally, discarding whatever value the inner poll's waker may have
stored meanwhile — and return `true`; otherwise return `false`.  Every
readiness access goes through the atomic model, so the very first step,
`is_ready`'s `Release` load, panics: a real poll aborts before the inner
poll can run, and the remaining steps, written out faithfully, are
unreachable. -/
def Supervised.poll (s : Supervised) : Option (Bool × Supervised) :=
  match Supervised.is_ready s.state.val with
  | none => none
  | some ready =>
      if ready then
        match Supervised.signal_idle s.state.val with
        | none => none
        | some _ =>
            let (r, _flagDuringPoll) := s.actor.do_poll ActorState.IDLE
            match r with
            | .ready =>
                match Supervised.signal_idle ActorState.IDLE.val with
                | none => none
                | some _ => some (true, { s with state := ActorState.IDLE })
            | .pending =>
                match Supervised.signal_waiting ActorState.IDLE.val with
                | none => none
                | some _ => some (true, { s with state := ActorState.WAITING })
      else some (false, s)

/-- One pass of the `for` loop in `run_until_quiescence` (lines 132-136): the
`!is_idle` filter probes each entry through the atomic model (a `Release`
load, hence a panic on any non-empty registry actually swept), then polls
the non-idle ones in registration order; the returned `Bool` is the value
`run_again` would be given by the pass. -/
def Supervisor.sweep : List Supervised → Option (List Supervised × Bool)
  | [] => some ([], false)
  | a :: rest =>
      match Supervised.is_idle a.state.val with
      | none => none
      | some idle =>
          if idle then
            (Supervisor.sweep rest).map (fun (rest', again) => (a :: rest', again))
          else
            match a.poll with
            | none => none
            | some (polled, a') =>
                (Supervisor.sweep rest).map
                  (fun (rest', again) => (a' :: rest', polled || again))

/-- The `while run_again` loop of `run_until_quiescence`, with fuel bounding
the number of iterations (the guard-false case consumes no fuel). -/
def Supervisor.runLoop : Nat → Bool → List Supervised → Option (List Supervised)
  | _, false, actors => some actors
  | 0, true, actors => some actors
  | fuel + 1, true, actors =>
      match Supervisor.sweep actors with
      | none => none
      | some (actors', again) => Supervisor.runLoop fuel again actors'

/-- `Supervisor::run_until_quiescence` (lines 128-138): `run_again` is
initialized to `false` immediately before `while run_again`, exactly as in
the source. -/
def Supervisor.run_until_quiescence (fuel : Nat) (actors : List Supervised) :
    Option (List Supervised) :=
  Supervisor.runLoop fuel false actors

/-! ## Timer multiplexer model (src/driver/timer/mod.rs)

`Milliseconds` is `u32`; it is modelled as `Nat` (the only subtraction in the
source is guarded by `>=`, so no wrap-around occurs).  A `Waker` is modelled
by an opaque identifier, an event value and an actor address likewise. -/

/-- `DelayDeadline` (lines 322-325): remaining time plus registered waker. -/
structure DelayDeadline where
  expiration : Nat
  waker : Option Nat
deriving DecidableEq, Repr

/-- `ScheduleDeadline` (lines 336-343): remaining time plus the stored
`Schedule { event, address }` payload (`run()` posts `event` to `target`). -/
structure ScheduleDeadline where
  expiration : Nat
  event : Nat
  target : Nat
deriving DecidableEq, Repr

/-- `Shared` (lines 48-52): the optional current hardware deadline and the
two slot tables (fixed `[_; 16]` arrays, modelled as lists iterated in array
order; a full table is a list containing no `none`). -/
structure Shared where
  current_deadline : Option Nat
  delay_deadlines : List (Option DelayDeadline)
  schedule_deadlines : List (Option ScheduleDeadline)
deriving DecidableEq, Repr

/-- `Shared::has_expired` (lines 63-73): unwrap the indexed delay slot
(`none` = panic on a vacant or out-of-range slot), report whether its
expiration is zero, and free the slot exactly when it is. -/
def Shared.has_expired (s : Shared) (index : Nat) : Option (Bool × Shared) :=
  match s.delay_deadlines[index]? with
  | some (some d) =>
      if d.expiration = 0 then
        some (true, { s with delay_deadlines := s.delay_deadlines.set index none })
      else
        some (false, s)
  | _ => none

/-- `Shared::register_waker` (lines 75-81): unwrap the indexed delay slot and
replace its waker. -/
def Shared.register_waker (s : Shared) (index : Nat) (waker : Nat) : Option Shared :=
  match s.delay_deadlines[index]? with
  | some (some d) =>
      some { s with
              delay_deadlines :=
                s.delay_deadlines.set index (some ⟨d.expiration, some waker⟩) }
  | _ => none

/-- `DelayFuture::poll` (lines 410-423): ready iff the slot has expired
(which frees it); otherwise register the caller's waker and stay pending. -/
def DelayFuture.poll (s : Shared) (index : Nat) (waker : Nat) :
    Option (PollRes × Shared) :=
  match s.has_expired index with
  | some (true, s') => some (.ready, s')
  | some (false, s') => (s'.register_waker index waker).map (fun s2 => (.pending, s2))
  | none => none

/-- The index of the first vacant slot, as found by
`iter_mut().enumerate().find(|e| matches!(e, (_, None)))`. -/
def findFreeSlot : List (Option α) → Option Nat
  | [] => none
  | none :: _ => some 0
  | some _ :: rest => (findFreeSlot rest).map (· + 1)

/-- The `Response` shapes of the `Delay` request handler:
`Response::immediate_future(self, DelayFuture::new(index, shared))` at line
182-183 (on the allocation arm, which in fact panics before reaching it, so
only the full-table `Response::immediate(self, ())` is ever returned). -/
inductive DelayResp where
  | immediateFuture (index : Nat)
  | immediate
deriving DecidableEq, Repr

/-- The observable outcome of one `TimerActor` message handler: the new
shared state, the argument of the `self.timer.start(..)` call if one was
issued, and the diagnostics logged (the source contains no active logging
statement on any path, only commented-out `log::info!` lines). -/
structure HandlerOut where
  shared : Shared
  started : Option Nat
  logs : List String
deriving DecidableEq, Repr

/-- `TimerActor::on_request::<Delay>` (lines 147-187), borrow-faithful.  The
`if let` scrutinee (lines 150-157) takes `delay_deadlines.borrow_mut()`,
and that `RefMut` guard stays live through both arms of the `if let`; the
allocation arm immediately calls `delay_deadlines.borrow_mut()` again at
line 159, a guaranteed `BorrowMutError` panic, so every `Delay` request
that finds a free slot aborts before allocating anything — the deadline
management and `timer.start` calls of lines 161-181 and the
`DelayFuture` response are unreachable.  (The inner `if let` at line 161
likewise holds a `Ref` on `current_deadline` across the `borrow_mut()`
calls of lines 163-178.)  Only the full-table arm, which takes no further
borrow, completes: it leaves all state untouched, answers
`Response::immediate(self, ())`, and logs nothing. -/
def TimerActor.on_request_delay (s : Shared) (_ms : Nat) :
    Option (HandlerOut × DelayResp) :=
  match findFreeSlot s.delay_deadlines with
  | some _index => none
  | none => some (⟨s, none, []⟩, .immediate)

/-- `TimerActor::on_notify::<Schedule>` (lines 197-223): allocate the first
free schedule slot with expiration `ms` and the message's event/address
payload; deadline management identical to `Delay`.  With no free slot,
nothing at all happens. -/
def TimerActor.on_notify_schedule (s : Shared) (ms : Nat) (event target : Nat) :
    HandlerOut :=
  match findFreeSlot s.schedule_deadlines with
  | some index =>
      let slots := s.schedule_deadlines.set index (some ⟨ms, event, target⟩)
      match s.current_deadline with
      | some current =>
          if current > ms then
            ⟨⟨some ms, s.delay_deadlines, slots⟩, some ms, []⟩
          else
            ⟨⟨s.current_deadline, s.delay_deadlines, slots⟩, none, []⟩
      | none => ⟨⟨some ms, s.delay_deadlines, slots⟩, some ms, []⟩
  | none => ⟨s, none, []⟩

/-- The `next_deadline` candidate update of `on_interrupt` (lines 246-254 and
273-282): replace the candidate iff it is absent or larger. -/
def updNext (nd : Option Nat) (e : Nat) : Option Nat :=
  match nd with
  | none => some e
  | some soonest => if soonest > e then some e else some soonest

/-- The delay-slot pass of `on_interrupt` (lines 235-257): saturating-
subtract `expired` from each occupied slot; a slot reaching zero has its
waker taken (`unwrap` — `none` = panic when no waker was registered) and
woken, and keeps occupying its entry; a slot still nonzero feeds the
`next_deadline` candidate.  Returns the updated slots, the wakers woken in
order, and the final candidate. -/
def delayPass (expired : Nat) :
    List (Option DelayDeadline) → Option Nat →
    Option (List (Option DelayDeadline) × List Nat × Option Nat)
  | [], nd => some ([], [], nd)
  | none :: rest, nd =>
      (delayPass expired rest nd).map (fun (rs, ws, nd') => (none :: rs, ws, nd'))
  | some d :: rest, nd =>
      let newExp := if d.expiration ≥ expired then d.expiration - expired else 0
      if newExp = 0 then
        match d.waker with
        | none => none
        | some w =>
            (delayPass expired rest nd).map
              (fun (rs, ws, nd') => (some ⟨0, none⟩ :: rs, w :: ws, nd'))
      else
        (delayPass expired rest (updNext nd newExp)).map
          (fun (rs, ws, nd') => (some ⟨newExp, d.waker⟩ :: rs, ws, nd'))

/-- The schedule-slot pass of `on_interrupt` (lines 261-285): saturating-
subtract `expired`; a slot reaching zero runs (`run()` posts its event to
its target address) and is freed (`slot.take()`); a slot still nonzero feeds
the `next_deadline` candidate. -/
def schedPass (expired : Nat) :
    List (Option ScheduleDeadline) → Option Nat →
    List (Option ScheduleDeadline) × List (Nat × Nat) × Option Nat
  | [], nd => ([], [], nd)
  | none :: rest, nd =>
      let (rs, ps, nd') := schedPass expired rest nd
      (none :: rs, ps, nd')
  | some d :: rest, nd =>
      let newExp := if d.expiration ≥ expired then d.expiration - expired else 0
      if newExp = 0 then
        let (rs, ps, nd') := schedPass expired rest nd
        (none :: rs, (d.target, d.event) :: ps, nd')
      else
        let (rs, ps, nd') := schedPass expired rest (updNext nd newExp)
        (some ⟨newExp, d.event, d.target⟩ :: rs, ps, nd')

/-- The observable outcome of one `TimerActor::on_interrupt` run. -/
structure InterruptOut where
  shared : Shared
  woken : List Nat
  posted : List (Nat × Nat)
  started : Option Nat
  nextDeadline : Option Nat
deriving DecidableEq, Repr

/-- `TimerActor::on_interrupt` (lines 227-300): read `expired` from the
current deadline (`unwrap` — `none` = panic when no deadline is set), run
the delay pass then the schedule pass threading the `next_deadline`
candidate, and finish: `Some(d)` with `d > 0` stores `d` as the current
deadline and restarts the hardware timer at `d`; `Some(0)` and `None` both
clear the current deadline (the source issues no hardware-timer call on
either of those paths).  The entry `clear_update_interrupt_flag()` call is a
hardware acknowledgement with no modelled state. -/
def TimerActor.on_interrupt (s : Shared) : Option InterruptOut :=
  match s.current_deadline with
  | none => none
  | some expired =>
      (delayPass expired s.delay_deadlines none).map
        (fun (dslots, woken, nd1) =>
          let (sslots, posted, nd2) := schedPass expired s.schedule_deadlines nd1
          let fin : Option Nat × Option Nat :=
            match nd2 with
            | some d => if d > 0 then (some d, some d) else (none, none)
            | none => (none, none)
          ⟨⟨fin.1, dslots, sslots⟩, woken, posted, fin.2, nd2⟩)

/-! ## Blinker model (src/driver/led/blinker.rs)

Addresses (`Address<S>`, `Address<TimerActor<T>>`, `Address<Self>`) are
modelled as opaque identifiers. -/

/-- `Blinker` (lines 8-17): bound LED and timer addresses, the blink delay,
and the self address stored by `on_mount`. -/
structure Blinker where
  led : Option Nat
  timer : Option Nat
  delay : Nat
  address : Option Nat
deriving DecidableEq, Repr

/-- The blinker's private `State` event enum (lines 76-80). -/
inductive Blinker.State where
  | On
  | Off
deriving DecidableEq, Repr

/-- A `Switchable` call emitted to a LED address (lines 90, 98). -/
inductive SwitchCmd where
  | turn_on
  | turn_off
deriving DecidableEq, Repr

/-- A `timer.schedule(delay, event, target)` call emitted to a timer
address (lines 91-95, 99-103). -/
structure ScheduleCmd where
  timer : Nat
  delay : Nat
  event : Blinker.State
  target : Nat
deriving DecidableEq, Repr

/-- `Blinker::on_notify::<State>` (lines 87-108): unwrap the bound LED,
timer and self addresses (`none` = panic when any is unbound), switch the
LED, and schedule the opposite event at `self.delay`; the actor state is
returned unchanged (`Completion::immediate(self)`). -/
def Blinker.on_notify_state (b : Blinker) (msg : Blinker.State) :
    Option (Blinker × List (Nat × SwitchCmd) × List ScheduleCmd) :=
  match b.led, b.timer, b.address with
  | some led, some timer, some addr =>
      match msg with
      | .On => some (b, [(led, .turn_on)], [⟨timer, b.delay, .Off, addr⟩])
      | .Off => some (b, [(led, .turn_off)], [⟨timer, b.delay, .On, addr⟩])
  | _, _, _ => none

/-- `Blinker::on_notify::<AdjustDelay>` (lines 117-120): `self.delay = ms`,
nothing else; no LED call and no schedule call is emitted. -/
def Blinker.on_notify_adjust (b : Blinker) (ms : Nat) :
    Blinker × List (Nat × SwitchCmd) × List ScheduleCmd :=
  ({ b with delay := ms }, [], [])

/-! ## Claims about the supervisor -/

/-- A registry entry whose flag is `READY` and whose inbox is non-empty: the
single work item completes immediately without touching the flag. -/
def readyCtx : Supervised :=
  ⟨⟨[fun flag => (PollRes.ready, flag)]⟩, ActorState.READY⟩

/-- C1. The claim requires `run_until_quiescence` to poll every READY
context with a non-empty inbox at least once and to sweep until quiescence.
The source initializes `run_again = false` immediately before
`while run_again`, so the loop body never executes: the registry is returned
untouched for every fuel bound, no context is ever polled — and since no
readiness atomic is ever probed, the function completes without hitting the
accessors' ordering panics.  In particular the concrete READY context with
a non-empty inbox keeps its READY flag. -/
theorem run_until_quiescence_never_polls :
    (∀ fuel actors, Supervisor.run_until_quiescence fuel actors = some actors) ∧
    (∀ fuel, Supervisor.run_until_quiescence fuel [readyCtx] = some [readyCtx]) ∧
    readyCtx.state = ActorState.READY ∧ readyCtx.actor.items.length = 1 := by
  refine ⟨fun fuel actors => ?_, fun fuel => ?_, rfl, rfl⟩ <;>
    cases fuel <;> rfl

/-- A READY context whose single inbox item invokes its waker (which stores
`READY` through the state-flag handle) and then returns `Pending` — the
concrete situation in which the claim predicts a post-poll `READY` flag. -/
def wakeThenPendingCtx : Supervised :=
  ⟨⟨[fun _ => (PollRes.pending, ActorState.READY)]⟩, ActorState.READY⟩

/-- C2. The claim describes the readiness flag after `Supervised::poll`
returns: `IDLE` on completion, `WAITING` on pending, `READY` on a
synchronous wake, the last never overwritten.  The code never gets that
far: the first thing `poll` does is `is_ready()`, whose
`load(Ordering::Release)` panics, so every `Supervised::poll` call — in
particular one on the synchronous-wake context — aborts before the inner
poll can run and before any post-poll flag value is stored.  (Even under
the intended orderings, the post-poll store of lines 69-75 is
unconditional, so a synchronously stored `READY` would not survive it.) -/
theorem supervised_poll_always_panics :
    (∀ s : Supervised, s.poll = none) ∧
    Supervised.poll wakeThenPendingCtx = none :=
  ⟨fun _ => rfl, rfl⟩

/-- C7. The claim states every readiness store uses `Release`, every
load `Acquire`, and none can panic.  In the source every `Supervised`
accessor has them swapped — loads pass `Ordering::Release` and stores pass
`Ordering::Acquire`, both of which Rust's `AtomicU8` rejects with a panic —
so each accessor panics (`= none`) on every input; only the waker's
`wake_by_ref` store (`Release`) is valid. -/
theorem readiness_orderings_swapped_panic :
    Supervised.is_idle 0 = none ∧
    Supervised.is_waiting 1 = none ∧
    Supervised.is_ready 2 = none ∧
    Supervised.signal_idle 2 = none ∧
    Supervised.signal_waiting 2 = none ∧
    Supervised.signal_ready 0 = none ∧
    VTABLE.wake_by_ref 1 = some 2 := by decide

/-! ## Claims about the timer multiplexer -/

/-- Step equation: a vacant slot is skipped by the delay pass. -/
theorem delayPass_cons_vacant (e : Nat) (nd : Option Nat)
    (rest : List (Option DelayDeadline)) :
    delayPass e (none :: rest) nd =
      (delayPass e rest nd).map (fun (rs, ws, nd') => (none :: rs, ws, nd')) := rfl

/-- Step equation: an expired slot with no registered waker panics. -/
theorem delayPass_cons_expired_noWaker (e : Nat) (nd : Option Nat)
    (rest : List (Option DelayDeadline)) (d : DelayDeadline)
    (hle : d.expiration ≤ e) (hw : d.waker = none) :
    delayPass e (some d :: rest) nd = none := by
  simp only [delayPass]
  rw [if_pos (by split <;> omega), hw]

/-- Step equation: an expired slot with a registered waker wakes it and keeps
occupying its entry with expiration `0` and waker taken. -/
theorem delayPass_cons_expired_waker (e : Nat) (nd : Option Nat)
    (rest : List (Option DelayDeadline)) (d : DelayDeadline) (w : Nat)
    (hle : d.expiration ≤ e) (hw : d.waker = some w) :
    delayPass e (some d :: rest) nd =
      (delayPass e rest nd).map
        (fun (rs, ws, nd') => (some ⟨0, none⟩ :: rs, w :: ws, nd')) := by
  simp only [delayPass]
  rw [if_pos (by split <;> omega), hw]

/-- Step equation: a still-live slot is decremented and feeds the
`next_deadline` candidate. -/
theorem delayPass_cons_live (e : Nat) (nd : Option Nat)
    (rest : List (Option DelayDeadline)) (d : DelayDeadline)
    (hgt : e < d.expiration) :
    delayPass e (some d :: rest) nd =
      (delayPass e rest (updNext nd (d.expiration - e))).map
        (fun (rs, ws, nd') => (some ⟨d.expiration - e, d.waker⟩ :: rs, ws, nd')) := by
  simp only [delayPass]
  rw [if_neg (by split <;> omega)]
  have hsub : (if d.expiration ≥ e then d.expiration - e else 0) = d.expiration - e := by
    split <;> omega
  rw [hsub]

/-- The delay pass panics exactly when some occupied slot reaches zero with
no registered waker (`waker.take().unwrap()`); the `next_deadline`
accumulator is irrelevant to the panic. -/
theorem delayPass_eq_none_iff (e : Nat) :
    ∀ (slots : List (Option DelayDeadline)) (nd : Option Nat),
      delayPass e slots nd = none ↔
        ∃ d : DelayDeadline, some d ∈ slots ∧ d.expiration ≤ e ∧ d.waker = none := by
  intro slots
  induction slots with
  | nil => intro nd; simp [delayPass]
  | cons hd rest ih =>
    intro nd
    cases hd with
    | none =>
        rw [delayPass_cons_vacant]
        simp only [Option.map_eq_none', ih, List.mem_cons]
        constructor
        · rintro ⟨d, hmem, hle, hw⟩; exact ⟨d, Or.inr hmem, hle, hw⟩
        · rintro ⟨d, hmem | hmem, hle, hw⟩
          · exact absurd hmem (by simp)
          · exact ⟨d, hmem, hle, hw⟩
    | some d0 =>
        by_cases hle : d0.expiration ≤ e
        · cases hw : d0.waker with
          | none =>
              rw [delayPass_cons_expired_noWaker e nd rest d0 hle hw]
              simp only [true_iff]
              exact ⟨d0, by simp, hle, hw⟩
          | some w =>
              rw [delayPass_cons_expired_waker e nd rest d0 w hle hw]
              simp only [Option.map_eq_none', ih, List.mem_cons]
              constructor
              · rintro ⟨d, hmem, hle', hw'⟩; exact ⟨d, Or.inr hmem, hle', hw'⟩
              · rintro ⟨d, hmem | hmem, hle', hw'⟩
                · rw [Option.some_inj] at hmem
                  subst hmem; rw [hw] at hw'; cases hw'
                · exact ⟨d, hmem, hle', hw'⟩
        · rw [delayPass_cons_live e nd rest d0 (by omega)]
          simp only [Option.map_eq_none', ih, List.mem_cons]
          constructor
          · rintro ⟨d, hmem, hle', hw'⟩; exact ⟨d, Or.inr hmem, hle', hw'⟩
          · rintro ⟨d, hmem | hmem, hle', hw'⟩
            · rw [Option.some_inj] at hmem
              subst hmem; omega
            · exact ⟨d, hmem, hle', hw'⟩

/-- C9. `TimerActor::on_interrupt` panics exactly when the current
deadline is unset (`current_deadline.borrow().unwrap()`) or some occupied
delay slot whose expiration reaches zero in this run (`expiration ≤ expired`
under the saturating subtraction) holds no registered waker
(`waker.take().unwrap()`).  Schedule slots cannot cause a panic. -/
theorem on_interrupt_panics_iff (s : Shared) :
    TimerActor.on_interrupt s = none ↔
      s.current_deadline = none ∨
      ∃ e d, s.current_deadline = some e ∧ some d ∈ s.delay_deadlines ∧
        d.expiration ≤ e ∧ d.waker = none := by
  cases hcd : s.current_deadline with
  | none => simp [TimerActor.on_interrupt, hcd]
  | some e =>
      simp only [TimerActor.on_interrupt, hcd, Option.map_eq_none',
        delayPass_eq_none_iff, Option.some.injEq]
      constructor
      · rintro ⟨d, hmem, hle, hw⟩
        exact Or.inr ⟨e, d, rfl, hmem, hle, hw⟩
      · rintro (h | ⟨e', d, he, hmem, hle, hw⟩)
        · cases h
        · cases he; exact ⟨d, hmem, hle, hw⟩

/-- On a successful delay pass, the slot at each index is transformed
pointwise: an occupied slot becomes `⟨0, none⟩` (woken, waker taken, still
occupying its entry) when its expiration reaches zero, and is decremented by
the saturating subtraction otherwise. -/
theorem delayPass_getElem (e : Nat) :
    ∀ (slots : List (Option DelayDeadline)) (nd : Option Nat)
      (out : List (Option DelayDeadline) × List Nat × Option Nat),
      delayPass e slots nd = some out →
      ∀ (i : Nat) (d : DelayDeadline), slots[i]? = some (some d) →
        out.1[i]? = some (some (if d.expiration ≤ e then ⟨0, none⟩
                                else ⟨d.expiration - e, d.waker⟩)) := by
  intro slots
  induction slots with
  | nil => intro nd out h i d hd; simp at hd
  | cons hd0 rest ih =>
    intro nd out h i d hd
    cases hd0 with
    | none =>
        rw [delayPass_cons_vacant] at h
        rw [Option.map_eq_some'] at h
        obtain ⟨⟨rs, ws, nd'⟩, hrest, hout⟩ := h
        cases i with
        | zero => simp at hd
        | succ i =>
            subst hout
            simp only [List.getElem?_cons_succ] at hd ⊢
            exact ih nd ⟨rs, ws, nd'⟩ hrest i d hd
    | some d0 =>
        by_cases hle : d0.expiration ≤ e
        · cases hw : d0.waker with
          | none =>
              rw [delayPass_cons_expired_noWaker e nd rest d0 hle hw] at h
              cases h
          | some w =>
              rw [delayPass_cons_expired_waker e nd rest d0 w hle hw] at h
              rw [Option.map_eq_some'] at h
              obtain ⟨⟨rs, ws, nd'⟩, hrest, hout⟩ := h
              subst hout
              cases i with
              | zero =>
                  simp only [List.getElem?_cons_zero, Option.some.injEq] at hd ⊢
                  subst hd
                  rw [if_pos hle]
              | succ i =>
                  simp only [List.getElem?_cons_succ] at hd ⊢
                  exact ih nd ⟨rs, ws, nd'⟩ hrest i d hd
        · rw [delayPass_cons_live e nd rest d0 (by omega)] at h
          rw [Option.map_eq_some'] at h
          obtain ⟨⟨rs, ws, nd'⟩, hrest, hout⟩ := h
          subst hout
          cases i with
          | zero =>
              simp only [List.getElem?_cons_zero, Option.some.injEq] at hd ⊢
              subst hd
              rw [if_neg hle]
          | succ i =>
              simp only [List.getElem?_cons_succ] at hd ⊢
              exact ih _ ⟨rs, ws, nd'⟩ hrest i d hd

/-- Step equation: a vacant slot is skipped by the schedule pass. -/
theorem schedPass_cons_vacant (e : Nat) (nd : Option Nat)
    (rest : List (Option ScheduleDeadline)) :
    schedPass e (none :: rest) nd =
      ((schedPass e rest nd).1.cons none,
        (schedPass e rest nd).2.1, (schedPass e rest nd).2.2) := rfl

/-- Step equation: an expired schedule slot posts its event and is freed. -/
theorem schedPass_cons_expired (e : Nat) (nd : Option Nat)
    (rest : List (Option ScheduleDeadline)) (d : ScheduleDeadline)
    (hle : d.expiration ≤ e) :
    schedPass e (some d :: rest) nd =
      ((schedPass e rest nd).1.cons none,
        (d.target, d.event) :: (schedPass e rest nd).2.1,
        (schedPass e rest nd).2.2) := by
  simp only [schedPass]
  rw [if_pos (by split <;> omega)]

/-- Step equation: a still-live schedule slot is decremented and feeds the
`next_deadline` candidate. -/
theorem schedPass_cons_live (e : Nat) (nd : Option Nat)
    (rest : List (Option ScheduleDeadline)) (d : ScheduleDeadline)
    (hgt : e < d.expiration) :
    schedPass e (some d :: rest) nd =
      ((schedPass e rest (updNext nd (d.expiration - e))).1.cons
          (some ⟨d.expiration - e, d.event, d.target⟩),
        (schedPass e rest (updNext nd (d.expiration - e))).2.1,
        (schedPass e rest (updNext nd (d.expiration - e))).2.2) := by
  simp only [schedPass]
  rw [if_neg (by split <;> omega)]
  have hsub : (if d.expiration ≥ e then d.expiration - e else 0) = d.expiration - e := by
    split <;> omega
  rw [hsub]

/-- The schedule pass transforms the slot at each index pointwise: an
occupied slot whose expiration reaches zero posts its `(target, event)` and
is freed; a still-live one is decremented by the saturating subtraction. -/
theorem schedPass_getElem (e : Nat) :
    ∀ (slots : List (Option ScheduleDeadline)) (nd : Option Nat)
      (i : Nat) (d : ScheduleDeadline), slots[i]? = some (some d) →
      ((schedPass e slots nd).1[i]? =
        some (if d.expiration ≤ e then none
              else some ⟨d.expiration - e, d.event, d.target⟩)) ∧
      (d.expiration ≤ e → (d.target, d.event) ∈ (schedPass e slots nd).2.1) := by
  intro slots
  induction slots with
  | nil => intro nd i d hd; simp at hd
  | cons hd0 rest ih =>
    intro nd i d hd
    cases hd0 with
    | none =>
        rw [schedPass_cons_vacant]
        cases i with
        | zero => simp at hd
        | succ i =>
            simp only [List.getElem?_cons_succ, List.cons_eq_cons] at hd ⊢
            obtain ⟨h1, h2⟩ := ih nd i d hd
            exact ⟨h1, h2⟩
    | some d0 =>
        by_cases hle : d0.expiration ≤ e
        · rw [schedPass_cons_expired e nd rest d0 hle]
          cases i with
          | zero =>
              simp only [List.getElem?_cons_zero, Option.some.injEq] at hd
              subst hd
              refine ⟨?_, fun _ => ?_⟩
              · simp [if_pos hle]
              · simp
          | succ i =>
              simp only [List.getElem?_cons_succ] at hd ⊢
              obtain ⟨h1, h2⟩ := ih nd i d hd
              exact ⟨h1, fun hh => List.mem_cons_of_mem _ (h2 hh)⟩
        · rw [schedPass_cons_live e nd rest d0 (by omega)]
          cases i with
          | zero =>
              simp only [List.getElem?_cons_zero, Option.some.injEq] at hd
              subst hd
              refine ⟨?_, fun hh => absurd hh hle⟩
              simp [if_neg hle]
          | succ i =>
              simp only [List.getElem?_cons_succ] at hd ⊢
              exact ih (updNext nd (d0.expiration - e)) i d hd

/-- `updNext` only ever stores positive candidates when fed positive ones. -/
theorem updNext_pos {nd : Option Nat} {e : Nat}
    (hnd : ∀ x, nd = some x → 0 < x) (he : 0 < e) :
    ∀ x, updNext nd e = some x → 0 < x := by
  intro x hx
  cases nd with
  | none => simp only [updNext] at hx; cases hx; exact he
  | some soonest =>
      have hs := hnd soonest rfl
      simp only [updNext] at hx
      by_cases hgt : soonest > e
      · rw [if_pos hgt] at hx; cases hx; omega
      · rw [if_neg hgt] at hx; cases hx; omega

/-- Every candidate the delay pass adds to `next_deadline` is positive: a
slot reaching zero is woken instead of contributing. -/
theorem delayPass_nd_pos (e : Nat) :
    ∀ (slots : List (Option DelayDeadline)) (nd : Option Nat)
      (out : List (Option DelayDeadline) × List Nat × Option Nat),
      delayPass e slots nd = some out →
      (∀ x, nd = some x → 0 < x) → ∀ x, out.2.2 = some x → 0 < x := by
  intro slots
  induction slots with
  | nil =>
      intro nd out h hnd
      cases h; exact hnd
  | cons hd0 rest ih =>
    intro nd out h hnd
    cases hd0 with
    | none =>
        rw [delayPass_cons_vacant, Option.map_eq_some'] at h
        obtain ⟨⟨rs, ws, nd'⟩, hrest, hout⟩ := h
        subst hout
        exact ih nd ⟨rs, ws, nd'⟩ hrest hnd
    | some d0 =>
        by_cases hle : d0.expiration ≤ e
        · cases hw : d0.waker with
          | none =>
              rw [delayPass_cons_expired_noWaker e nd rest d0 hle hw] at h
              cases h
          | some w =>
              rw [delayPass_cons_expired_waker e nd rest d0 w hle hw,
                Option.map_eq_some'] at h
              obtain ⟨⟨rs, ws, nd'⟩, hrest, hout⟩ := h
              subst hout
              exact ih nd ⟨rs, ws, nd'⟩ hrest hnd
        · rw [delayPass_cons_live e nd rest d0 (by omega), Option.map_eq_some'] at h
          obtain ⟨⟨rs, ws, nd'⟩, hrest, hout⟩ := h
          subst hout
          exact ih _ ⟨rs, ws, nd'⟩ hrest (updNext_pos hnd (by omega))

/-- Every candidate the schedule pass adds to `next_deadline` is positive: a
slot reaching zero runs and is freed instead of contributing. -/
theorem schedPass_nd_pos (e : Nat) :
    ∀ (slots : List (Option ScheduleDeadline)) (nd : Option Nat),
      (∀ x, nd = some x → 0 < x) →
      ∀ x, (schedPass e slots nd).2.2 = some x → 0 < x := by
  intro slots
  induction slots with
  | nil => intro nd hnd; exact hnd
  | cons hd0 rest ih =>
    intro nd hnd
    cases hd0 with
    | none => rw [schedPass_cons_vacant]; exact ih nd hnd
    | some d0 =>
        by_cases hle : d0.expiration ≤ e
        · rw [schedPass_cons_expired e nd rest d0 hle]
          exact ih nd hnd
        · rw [schedPass_cons_live e nd rest d0 (by omega)]
          exact ih _ (updNext_pos hnd (by omega))

/-- C5. At the end of every (non-panicking) `on_interrupt` run: whenever
the computed `next_deadline` is `Some(d)`, `d` is positive, the current
deadline is set to `d` and the hardware timer is restarted at `d`; the
computed `next_deadline` is never `Some(0)` (zero expirations are consumed by
the passes), so the claim's `Some(0)` case — whose branch in the source
would merely clear the current deadline — cannot arise; and when it is
`None` the current deadline is cleared and no hardware-timer start is issued
(the `HalTimer` interface has no stop operation; the one-shot timer is simply
not restarted). -/
theorem on_interrupt_finish (s : Shared) (res : InterruptOut)
    (h : TimerActor.on_interrupt s = some res) :
    (∀ d, res.nextDeadline = some d →
      0 < d ∧ res.shared.current_deadline = some d ∧ res.started = some d) ∧
    res.nextDeadline ≠ some 0 ∧
    (res.nextDeadline = none →
      res.shared.current_deadline = none ∧ res.started = none) := by
  unfold TimerActor.on_interrupt at h
  cases hcd : s.current_deadline with
  | none => rw [hcd] at h; cases h
  | some e =>
      rw [hcd, Option.map_eq_some'] at h
      obtain ⟨⟨dslots, woken, nd1⟩, hdp, hout⟩ := h
      dsimp only at hout
      have hpos1 : ∀ x, nd1 = some x → 0 < x :=
        delayPass_nd_pos e s.delay_deadlines none ⟨dslots, woken, nd1⟩ hdp
          (by intro x hx; cases hx)
      rcases hsp : schedPass e s.schedule_deadlines nd1 with ⟨sslots, posted, nd2⟩
      have hpos2 : ∀ x, nd2 = some x → 0 < x := by
        intro x hx
        have := schedPass_nd_pos e s.schedule_deadlines nd1 hpos1 x
        rw [hsp] at this
        exact this hx
      rw [hsp] at hout
      dsimp only at hout
      subst hout
      dsimp only
      cases nd2 with
      | none =>
          refine ⟨?_, ?_, ?_⟩
          · intro d hd; cases hd
          · intro h0; cases h0
          · intro _; exact ⟨rfl, rfl⟩
      | some d =>
          have hd : 0 < d := hpos2 d rfl
          refine ⟨?_, ?_, ?_⟩
          · intro d' hd'
            cases hd'
            refine ⟨hd, ?_, ?_⟩ <;> simp [hd]
          · intro hzero
            cases hzero
            omega
          · intro hn; cases hn

/-- C5, witness. A run with one live delay slot: `next_deadline`
computes to `Some(4)`, the current deadline is set to `4` and the timer is
restarted at `4`. -/
theorem on_interrupt_finish_witness :
    TimerActor.on_interrupt ⟨some 5, [some ⟨9, some 2⟩], []⟩ =
      some ⟨⟨some 4, [some ⟨4, some 2⟩], []⟩, [], [], some 4, some 4⟩ ∧
    (some 4 : Option Nat) = some 4 ∧
    (0 < 4 ∧ (⟨some 4, [some ⟨4, some 2⟩], []⟩ : Shared).current_deadline = some 4 ∧
      (some 4 : Option Nat) = some 4) := by
  refine ⟨by decide, rfl, ?_⟩
  exact (on_interrupt_finish ⟨some 5, [some ⟨9, some 2⟩], []⟩
    ⟨⟨some 4, [some ⟨4, some 2⟩], []⟩, [], [], some 4, some 4⟩ (by decide)).1 4 rfl

/-- Decomposition of a successful `on_interrupt` run into its two passes. -/
theorem on_interrupt_components (s : Shared) (res : InterruptOut) (e : Nat)
    (hcd : s.current_deadline = some e)
    (h : TimerActor.on_interrupt s = some res) :
    ∃ dslots woken nd1,
      delayPass e s.delay_deadlines none = some (dslots, woken, nd1) ∧
      res.shared.delay_deadlines = dslots ∧
      res.shared.schedule_deadlines = (schedPass e s.schedule_deadlines nd1).1 ∧
      res.posted = (schedPass e s.schedule_deadlines nd1).2.1 ∧
      res.woken = woken ∧
      res.nextDeadline = (schedPass e s.schedule_deadlines nd1).2.2 := by
  unfold TimerActor.on_interrupt at h
  rw [hcd, Option.map_eq_some'] at h
  obtain ⟨⟨dslots, woken, nd1⟩, hdp, hout⟩ := h
  dsimp only at hout
  rcases hsp : schedPass e s.schedule_deadlines nd1 with ⟨sslots, posted, nd2⟩
  rw [hsp] at hout
  dsimp only at hout
  subst hout
  exact ⟨dslots, woken, nd1, hdp, rfl, by rw [hsp], by rw [hsp], rfl, by rw [hsp]⟩

/-- C3. In every (non-panicking) `on_interrupt` run with current hardware
deadline `e`, each occupied delay slot with remaining time `r` still holds,
afterwards, remaining time `max(r - e, 0)` (the saturating subtraction of
the source), and each occupied schedule slot with remaining time `r > e`
holds `r - e` afterwards; a schedule slot whose remaining time saturates to
zero is set to zero and then freed in the same pass (cf. the slot-lifetime
claim). -/
theorem on_interrupt_saturating_decrement (s : Shared) (res : InterruptOut)
    (e : Nat) (hcd : s.current_deadline = some e)
    (h : TimerActor.on_interrupt s = some res) :
    (∀ (i : Nat) (d : DelayDeadline), s.delay_deadlines[i]? = some (some d) →
       ∃ d', res.shared.delay_deadlines[i]? = some (some d') ∧
         (d'.expiration : ℤ) = max ((d.expiration : ℤ) - (e : ℤ)) 0) ∧
    (∀ (i : Nat) (sd : ScheduleDeadline), s.schedule_deadlines[i]? = some (some sd) →
       (e < sd.expiration →
         res.shared.schedule_deadlines[i]? =
           some (some ⟨sd.expiration - e, sd.event, sd.target⟩) ∧
         ((sd.expiration - e : ℤ) = max ((sd.expiration : ℤ) - (e : ℤ)) 0)) ∧
       (sd.expiration ≤ e → res.shared.schedule_deadlines[i]? = some none)) := by
  obtain ⟨dslots, woken, nd1, hdp, hdel, hsched, hpost, hwoken, hnd⟩ :=
    on_interrupt_components s res e hcd h
  constructor
  · intro i d hd
    have hg := delayPass_getElem e s.delay_deadlines none (dslots, woken, nd1) hdp i d hd
    rw [hdel]
    by_cases hle : d.expiration ≤ e
    · refine ⟨⟨0, none⟩, ?_, ?_⟩
      · rw [if_pos hle] at hg; exact hg
      · dsimp only; omega
    · refine ⟨⟨d.expiration - e, d.waker⟩, ?_, ?_⟩
      · rw [if_neg hle] at hg; exact hg
      · dsimp only; omega
  · intro i sd hsd
    have hg := schedPass_getElem e s.schedule_deadlines nd1 i sd hsd
    rw [hsched]
    constructor
    · intro hgt
      refine ⟨?_, ?_⟩
      · have := hg.1; rw [if_neg (by omega)] at this; exact this
      · omega
    · intro hle
      have := hg.1; rw [if_pos hle] at this; exact this

/-- The state of claim C3's witness run: one delay slot with 7 ms remaining,
one schedule slot with 3 ms remaining, hardware deadline 3 ms. -/
def sC3 : Shared := ⟨some 3, [some ⟨7, some 1⟩], [some ⟨3, 9, 4⟩]⟩

/-- The outcome of claim C3's witness run. -/
def resC3 : InterruptOut :=
  ⟨⟨some 4, [some ⟨4, some 1⟩], [none]⟩, [], [(4, 9)], some 4, some 4⟩

/-- C3, witness. The run on `sC3`: the delay slot's remaining time
becomes `max(7 - 3, 0) = 4` and the expired schedule slot is freed. -/
theorem on_interrupt_saturating_decrement_witness :
    sC3.current_deadline = some 3 ∧
    TimerActor.on_interrupt sC3 = some resC3 ∧
    (∃ d', resC3.shared.delay_deadlines[0]? = some (some d') ∧
      (d'.expiration : ℤ) =
        max ((((7 : Nat) : ℤ)) - (((3 : Nat) : ℤ))) 0) ∧
    resC3.shared.schedule_deadlines[0]? = some none := by
  refine ⟨rfl, by decide, ?_, ?_⟩
  · exact (on_interrupt_saturating_decrement sC3 resC3 3 rfl (by decide)).1
      0 ⟨7, some 1⟩ rfl
  · exact ((on_interrupt_saturating_decrement sC3 resC3 3 rfl (by decide)).2
      0 ⟨3, 9, 4⟩ rfl).2 (by decide)

/-- C10. The interrupt handler never frees a delay slot: an occupied
delay slot whose expiration reaches zero stays occupied with expiration `0`
and its waker taken, and a still-live one stays occupied with its waker;
the slot is only removed when the corresponding `DelayFuture` is next
polled, where `Shared::has_expired` reports `true` and takes the slot.
Schedule slots, by contrast, are freed inside the interrupt handler
immediately after their `(target, event)` is posted. -/
theorem interrupt_never_frees_delay_slots (s : Shared) (res : InterruptOut)
    (e : Nat) (hcd : s.current_deadline = some e)
    (h : TimerActor.on_interrupt s = some res) :
    (∀ (i : Nat) (d : DelayDeadline), s.delay_deadlines[i]? = some (some d) →
       d.expiration ≤ e →
       res.shared.delay_deadlines[i]? = some (some ⟨0, none⟩)) ∧
    (∀ (i : Nat) (d : DelayDeadline), s.delay_deadlines[i]? = some (some d) →
       e < d.expiration →
       res.shared.delay_deadlines[i]? = some (some ⟨d.expiration - e, d.waker⟩)) ∧
    (∀ (i : Nat) (sd : ScheduleDeadline),
       s.schedule_deadlines[i]? = some (some sd) → sd.expiration ≤ e →
       res.shared.schedule_deadlines[i]? = some none ∧
       (sd.target, sd.event) ∈ res.posted) ∧
    (∀ (s' : Shared) (j : Nat) (d : DelayDeadline),
       s'.delay_deadlines[j]? = some (some d) →
       (d.expiration = 0 →
          s'.has_expired j =
            some (true,
              { s' with delay_deadlines := s'.delay_deadlines.set j none })) ∧
       (d.expiration ≠ 0 → s'.has_expired j = some (false, s'))) := by
  obtain ⟨dslots, woken, nd1, hdp, hdel, hsched, hpost, hwoken, hnd⟩ :=
    on_interrupt_components s res e hcd h
  refine ⟨?_, ?_, ?_, ?_⟩
  · intro i d hd hle
    have hg := delayPass_getElem e s.delay_deadlines none (dslots, woken, nd1) hdp i d hd
    rw [if_pos hle] at hg
    rw [hdel]; exact hg
  · intro i d hd hgt
    have hg := delayPass_getElem e s.delay_deadlines none (dslots, woken, nd1) hdp i d hd
    rw [if_neg (by omega)] at hg
    rw [hdel]; exact hg
  · intro i sd hsd hle
    have hg := schedPass_getElem e s.schedule_deadlines nd1 i sd hsd
    refine ⟨?_, ?_⟩
    · have := hg.1; rw [if_pos hle] at this; rw [hsched]; exact this
    · rw [hpost]; exact hg.2 hle
  · intro s' j d hd
    refine ⟨?_, ?_⟩
    · intro h0
      unfold Shared.has_expired
      rw [hd]; dsimp only; rw [if_pos h0]
    · intro h0
      unfold Shared.has_expired
      rw [hd]; dsimp only; rw [if_neg h0]

/-- The state of claim C10's witness run: two delay slots (5 ms and 9 ms
remaining, wakers registered) and two schedule slots (5 ms and 12 ms),
hardware deadline 5 ms. -/
def sC10 : Shared :=
  ⟨some 5, [some ⟨5, some 1⟩, some ⟨9, some 2⟩],
    [some ⟨5, 11, 4⟩, some ⟨12, 13, 6⟩]⟩

/-- The outcome of claim C10's witness run. -/
def resC10 : InterruptOut :=
  ⟨⟨some 4, [some ⟨0, none⟩, some ⟨4, some 2⟩], [none, some ⟨7, 13, 6⟩]⟩,
    [1], [(4, 11)], some 4, some 4⟩

/-- C10, witness. The run on `sC10`: the expired delay slot stays
occupied as `⟨0, none⟩`, the expired schedule slot is freed with its event
posted, and `has_expired` then frees the zeroed delay slot. -/
theorem interrupt_never_frees_delay_slots_witness :
    sC10.current_deadline = some 5 ∧
    TimerActor.on_interrupt sC10 = some resC10 ∧
    resC10.shared.delay_deadlines[0]? = some (some ⟨0, none⟩) ∧
    (resC10.shared.schedule_deadlines[0]? = some none ∧
      (4, 11) ∈ resC10.posted) ∧
    resC10.shared.has_expired 0 =
      some (true,
        { resC10.shared with
            delay_deadlines := resC10.shared.delay_deadlines.set 0 none }) := by
  refine ⟨rfl, by decide, ?_, ?_, ?_⟩
  · exact (interrupt_never_frees_delay_slots sC10 resC10 5 rfl (by decide)).1
      0 ⟨5, some 1⟩ rfl (by decide)
  · exact (interrupt_never_frees_delay_slots sC10 resC10 5 rfl (by decide)).2.2.1
      0 ⟨5, 11, 4⟩ rfl (by decide)
  · exact ((interrupt_never_frees_delay_slots sC10 resC10 5 rfl (by decide)).2.2.2
      resC10.shared 0 ⟨0, none⟩ rfl).1 rfl

/-- A slot is *live* when it is occupied and its remaining time is nonzero
(an expired-but-uncollected delay slot sits at zero until `has_expired`
frees it, and is no longer a pending deadline).  `deadlineLE` is the claim's
property: the current deadline, when set, is a lower bound on every live
expiration. -/
def Shared.deadlineLE (s : Shared) : Prop :=
  ∀ c, s.current_deadline = some c →
    (∀ d : DelayDeadline, some d ∈ s.delay_deadlines →
       0 < d.expiration → c ≤ d.expiration) ∧
    (∀ sd : ScheduleDeadline, some sd ∈ s.schedule_deadlines →
       0 < sd.expiration → c ≤ sd.expiration)

/-- When no hardware deadline is set, no live slot exists (initially the
tables are empty, and `on_interrupt` clears the deadline only when no
nonzero expiration remains). -/
def Shared.vacantWhenUnset (s : Shared) : Prop :=
  s.current_deadline = none →
    (∀ d : DelayDeadline, some d ∈ s.delay_deadlines → d.expiration = 0) ∧
    (∀ sd : ScheduleDeadline, some sd ∈ s.schedule_deadlines → sd.expiration = 0)

/-- The timer-state invariant. -/
def Shared.inv (s : Shared) : Prop := s.deadlineLE ∧ s.vacantWhenUnset

/-- C4. The claim requires that after every `Delay` request and every
`Schedule` notify the stored `current_deadline`, when set, bounds every
live expiration from below (live: occupied with nonzero remaining time).
The `Schedule` handler satisfies it — it preserves the whole invariant —
and the full-table `Delay` path leaves the state untouched; but every
`Delay` request that finds a free slot panics on the second `borrow_mut`
of `delay_deadlines` before any allocation or deadline management runs,
so the claimed post-handling state is unreachable for it. -/
theorem delay_request_allocation_panics :
    (∀ (s : Shared) (ms index : Nat),
       findFreeSlot s.delay_deadlines = some index →
       TimerActor.on_request_delay s ms = none) ∧
    TimerActor.on_request_delay ⟨none, [none], [none]⟩ 3 = none ∧
    (∀ (s : Shared) (ms ev tgt : Nat), s.inv →
       (TimerActor.on_notify_schedule s ms ev tgt).shared.inv) := by
  refine ⟨?_, by decide, ?_⟩
  · intro s ms index hfind
    unfold TimerActor.on_request_delay
    rw [hfind]
  · intro s ms ev tgt h
    obtain ⟨hle, hvac⟩ := h
    unfold TimerActor.on_notify_schedule
    cases hfind : findFreeSlot s.schedule_deadlines with
    | none => exact ⟨hle, hvac⟩
    | some index =>
        cases hcd : s.current_deadline with
        | none =>
            refine ⟨?_, ?_⟩
            · intro c hc
              rw [Option.some_inj] at hc
              subst hc
              refine ⟨?_, ?_⟩
              · intro d hmem hpos
                exact absurd ((hvac hcd).1 d hmem) (by omega)
              · intro sd hmem hpos
                rcases List.mem_or_eq_of_mem_set hmem with hold | hnew
                · exact absurd ((hvac hcd).2 sd hold) (by omega)
                · rw [Option.some_inj] at hnew; subst hnew; exact le_refl _
            · intro hnone; cases hnone
        | some current =>
            by_cases hgt : current > ms
            · dsimp only
              rw [if_pos hgt]
              refine ⟨?_, ?_⟩
              · intro c hc
                rw [Option.some_inj] at hc
                subst hc
                refine ⟨?_, ?_⟩
                · intro d hmem hpos
                  have := ((hle current) hcd).1 d hmem hpos; omega
                · intro sd hmem hpos
                  rcases List.mem_or_eq_of_mem_set hmem with hold | hnew
                  · have := ((hle current) hcd).2 sd hold hpos; omega
                  · rw [Option.some_inj] at hnew; subst hnew; exact le_refl _
              · intro hnone; cases hnone
            · dsimp only
              rw [if_neg hgt]
              refine ⟨?_, ?_⟩
              · intro c hc
                dsimp only at hc
                rw [Option.some_inj] at hc
                subst hc
                refine ⟨?_, ?_⟩
                · intro d hmem hpos
                  exact ((hle current) hcd).1 d hmem hpos
                · intro sd hmem hpos
                  rcases List.mem_or_eq_of_mem_set hmem with hold | hnew
                  · exact ((hle current) hcd).2 sd hold hpos
                  · rw [Option.some_inj] at hnew; subst hnew; dsimp only at hpos ⊢; omega
              · intro hnone; dsimp only at hnone; cases hnone

/-- C4, witness. The failing input concretely: on the state with one vacant
slot in each table and no current deadline, `Delay(3)` finds slot `0` and
panics, while a `Schedule` notify on the same state preserves the
invariant. -/
theorem delay_request_allocation_panics_witness :
    findFreeSlot (⟨none, [none], [none]⟩ : Shared).delay_deadlines = some 0 ∧
    TimerActor.on_request_delay ⟨none, [none], [none]⟩ 3 = none ∧
    Shared.inv ⟨none, [none], [none]⟩ ∧
    (TimerActor.on_notify_schedule ⟨none, [none], [none]⟩ 3 1 2).shared.inv := by
  have hinv : Shared.inv ⟨none, [none], [none]⟩ := by
    constructor
    · intro c hc; cases hc
    · intro _
      constructor
      · intro d hmem
        simp only [List.mem_cons, List.not_mem_nil, or_false] at hmem
        cases hmem
      · intro sd hmem
        simp only [List.mem_cons, List.not_mem_nil, or_false] at hmem
        cases hmem
  exact ⟨by decide,
    delay_request_allocation_panics.1 ⟨none, [none], [none]⟩ 3 0 (by decide),
    hinv,
    delay_request_allocation_panics.2.2 ⟨none, [none], [none]⟩ 3 1 2 hinv⟩

/-- A state whose two 16-entry slot tables are completely full. -/
def fullTables : Shared :=
  ⟨some 9, List.replicate 16 (some ⟨9, none⟩), List.replicate 16 (some ⟨9, 1, 2⟩)⟩

/-- C6, counterexample. On full tables the handlers do degrade exactly
as claimed — `Delay` answers `Response::immediate` with no state change and
`Schedule` is dropped with no state change — but the claim's final conjunct
fails: no diagnostic is logged on either path (the source contains no active
logging statement there), so the claim as stated is false at this input. -/
theorem full_table_no_diagnostic :
    ¬ ((TimerActor.on_request_delay fullTables 3).map (fun out => out.2) =
         some DelayResp.immediate ∧
       (TimerActor.on_request_delay fullTables 3).map (fun out => out.1.shared) =
         some fullTables ∧
       (TimerActor.on_request_delay fullTables 3).map (fun out => out.1.logs) ≠
         some [] ∧
       (TimerActor.on_notify_schedule fullTables 3 1 2).shared = fullTables ∧
       (TimerActor.on_notify_schedule fullTables 3 1 2).logs ≠ []) := by
  decide

/-- C6, amended. Whenever the delay slot table is full (no vacant slot
is found), a `Delay` request returns the immediately-ready response, leaves
the whole shared state — slot tables and `current_deadline` — unchanged and
starts no timer; whenever the schedule table is full, a `Schedule` notify is
silently dropped with no state change; in both cases no diagnostic is
logged. -/
theorem full_table_degrades_silently (s : Shared) (ms ev tgt : Nat)
    (hd : findFreeSlot s.delay_deadlines = none)
    (hs : findFreeSlot s.schedule_deadlines = none) :
    TimerActor.on_request_delay s ms =
      some (⟨s, none, []⟩, DelayResp.immediate) ∧
    TimerActor.on_notify_schedule s ms ev tgt = ⟨s, none, []⟩ := by
  constructor
  · unfold TimerActor.on_request_delay; rw [hd]
  · unfold TimerActor.on_notify_schedule; rw [hs]

/-- C6, witness. The amended statement applied to the full tables. -/
theorem full_table_degrades_silently_witness :
    findFreeSlot fullTables.delay_deadlines = none ∧
    findFreeSlot fullTables.schedule_deadlines = none ∧
    TimerActor.on_request_delay fullTables 3 =
      some (⟨fullTables, none, []⟩, DelayResp.immediate) ∧
    TimerActor.on_notify_schedule fullTables 3 1 2 = ⟨fullTables, none, []⟩ := by
  refine ⟨by decide, by decide, ?_, ?_⟩
  · exact (full_table_degrades_silently fullTables 3 1 2 (by decide) (by decide)).1
  · exact (full_table_degrades_silently fullTables 3 1 2 (by decide) (by decide)).2

/-! ## Claim about the blinker -/

/-- C8. Handling `AdjustDelay(ms)` replaces only the stored `delay`
field — the LED, timer and self addresses are unchanged — and emits no LED
call and no schedule call (so nothing already enqueued at the timer is
modified); the new delay is then the one carried by the schedule call of
any subsequent `On`/`Off` handler. -/
theorem adjust_delay_only_changes_delay (b : Blinker) (ms : Nat)
    (msg : Blinker.State) (led timer addr : Nat)
    (hl : b.led = some led) (ht : b.timer = some timer)
    (ha : b.address = some addr) :
    (b.on_notify_adjust ms).1.led = b.led ∧
    (b.on_notify_adjust ms).1.timer = b.timer ∧
    (b.on_notify_adjust ms).1.address = b.address ∧
    (b.on_notify_adjust ms).1.delay = ms ∧
    (b.on_notify_adjust ms).2.1 = [] ∧
    (b.on_notify_adjust ms).2.2 = [] ∧
    (b.on_notify_adjust ms).1.on_notify_state msg =
      some ((b.on_notify_adjust ms).1,
        [(led, match msg with
               | .On => SwitchCmd.turn_on
               | .Off => SwitchCmd.turn_off)],
        [⟨timer, ms,
          match msg with
          | .On => Blinker.State.Off
          | .Off => Blinker.State.On, addr⟩]) := by
  refine ⟨rfl, rfl, rfl, rfl, rfl, rfl, ?_⟩
  unfold Blinker.on_notify_state Blinker.on_notify_adjust
  dsimp only
  rw [hl, ht, ha]
  cases msg <;> rfl

/-- The blinker of claim C8's witness: LED address 1, timer address 2,
500 ms delay, self address 3. -/
def blinkC8 : Blinker := ⟨some 1, some 2, 500, some 3⟩

/-- C8, witness. After `AdjustDelay(100)`, the next `On` handler
switches LED 1 on and schedules `Off` at the new 100 ms delay. -/
theorem adjust_delay_only_changes_delay_witness :
    blinkC8.led = some 1 ∧
    (blinkC8.on_notify_adjust 100).1.delay = 100 ∧
    (blinkC8.on_notify_adjust 100).1.on_notify_state Blinker.State.On =
      some ((blinkC8.on_notify_adjust 100).1, [(1, SwitchCmd.turn_on)],
        [⟨2, 100, Blinker.State.Off, 3⟩]) := by
  refine ⟨rfl, ?_, ?_⟩
  · exact (adjust_delay_only_changes_delay blinkC8 100 Blinker.State.On
      1 2 3 rfl rfl rfl).2.2.2.1
  · exact (adjust_delay_only_changes_delay blinkC8 100 Blinker.State.On
      1 2 3 rfl rfl rfl).2.2.2.2.2.2
